import Mathlib

/-!
# DeepResearchVisualizer — verification of the text pipeline

Shallow embedding of the Markdown-processing core of the repository:
the section segmenter `findHeadingsAndContent`, the classifier/codegen
`generateMermaidCode` with its helpers (`sanitizeText`, `containsKeywords`),
the title inference `generateTitleFromContent`, and the data shape passed
to the document store by `saveReport`.

JavaScript strings are modelled as `List Char`; string helpers
(`split`, `trim`, `includes`, `substring`, regex replacement and search)
are embedded as executable functions on character lists, following the
ECMAScript semantics of the exact regular expressions in the source.
-/

/-! ## JavaScript character classes -/

/-- The ECMAScript whitespace class (backslash-s, also the set removed by
`String.prototype.trim`): tab, line feed, vertical tab, form feed,
carriage return, space, NBSP, Ogham space mark, the U+2000 to U+200A
range, line separator, paragraph separator, narrow NBSP, medium
mathematical space, ideographic space, and the BOM. -/
def isJsWhitespace (c : Char) : Bool :=
  c = ' ' || c = '\t' || c = '\n' || c = '\x0b' || c = '\x0c' || c = '\r' ||
  c = '\u00A0' || c = '\u1680' || ('\u2000' ≤ c && c ≤ '\u200A') ||
  c = '\u2028' || c = '\u2029' || c = '\u202F' || c = '\u205F' ||
  c = '\u3000' || c = '\uFEFF'

/-- ECMAScript line terminators: LF, CR, line separator, paragraph
separator.  The dot of a regex matches exactly the non-terminators, and
a multiline `^` anchors right after each terminator. -/
def isJsLineTerminator (c : Char) : Bool :=
  c = '\n' || c = '\r' || c = '\u2028' || c = '\u2029'

/-! ## `String.prototype.trim` -/

/-- JS `trim`: drop whitespace from both ends. -/
def trimChars (l : List Char) : List Char :=
  ((l.dropWhile isJsWhitespace).reverse.dropWhile isJsWhitespace).reverse

/-! ## `String.prototype.split` -/

/-- JS `split` on a single-character class: `""` splits to `[""]`,
adjacent separators produce empty fragments, a trailing separator a
trailing empty fragment. -/
def jsSplit (sep : Char → Bool) : List Char → List (List Char)
  | [] => [[]]
  | c :: rest =>
    if sep c then [] :: jsSplit sep rest
    else
      match jsSplit sep rest with
      | h :: t => (c :: h) :: t
      | [] => [[c]]

/-- `markdown.split('\n')`. -/
def splitLines (l : List Char) : List (List Char) :=
  jsSplit (fun c => c = '\n') l

/-! ## `String.prototype.includes` (substring test) -/

def startsWithChars : List Char → List Char → Bool
  | [], _ => true
  | _ :: _, [] => false
  | a :: as, b :: bs => a = b && startsWithChars as bs

/-- `hay.includes(needle)`. -/
def containsSub (needle : List Char) : List Char → Bool
  | [] => needle.isEmpty
  | c :: rest => startsWithChars needle (c :: rest) || containsSub needle rest

/-- `String.prototype.toLowerCase`, on the ASCII range (the keyword sets
searched for are all ASCII). -/
def jsToLower (l : List Char) : List Char := l.map Char.toLower

/-! ## `sanitizeText` (part_002 lines 114–120)

```ts
const sanitizeText = (text: string) => {
  return text
    .replace(/"/g, "'")
    .replace(/[[\]]/g, '')
    .replace(/[()]/g, '')
    .trim();
};
``` -/

/-- The single-quote character (JS rewrites double quotes to it). -/
def singleQuote : Char := Char.ofNat 39

/-- `.replace(/"/g, "'")`. -/
def replaceQuotes (l : List Char) : List Char :=
  l.map fun c => if c = '"' then singleQuote else c

/-- `.replace(/[[\]]/g, '')`. -/
def removeSquareBrackets (l : List Char) : List Char :=
  l.filter fun c => !(c = '[' || c = ']')

/-- `.replace(/[()]/g, '')`. -/
def removeParens (l : List Char) : List Char :=
  l.filter fun c => !(c = '(' || c = ')')

def sanitizeText (l : List Char) : List Char :=
  trimChars (removeParens (removeSquareBrackets (replaceQuotes l)))

/-! ## `containsKeywords` (part_002 lines 123–125) -/

/-- `keywords.some(keyword => text.toLowerCase().includes(keyword.toLowerCase()))`. -/
def containsKeywords (text : List Char) (keywords : List (List Char)) : Bool :=
  keywords.any fun kw => containsSub (jsToLower kw) (jsToLower text)

/-! ## `generateMermaidCode` (part_002 lines 112–240)

Five keyword-triggered branches checked in fixed order, then a mind-map
default, then a placeholder.  Each branch builds its Mermaid program by
string concatenation exactly as the source does. -/

/-- The separator class `[,.;]` of the partnership branch. -/
def isEntitySep (c : Char) : Bool := c = ',' || c = '.' || c = ';'

/-- The sentence separator class `[.!?]` of the other branches. -/
def isSentenceSep (c : Char) : Bool := c = '.' || c = '!' || c = '?'

/-- Decimal rendering of the `${index}` interpolations. -/
def natChars (n : Nat) : List Char := (Nat.repr n).data

def partnershipKeywords : List (List Char) :=
  ["agreement".data, "partnership".data, "trade".data, "collaboration".data]

def marketKeywords : List (List Char) :=
  ["market".data, "growth".data, "opportunity".data, "expansion".data]

def competitiveKeywords : List (List Char) :=
  ["competitive".data, "versus".data, "vs".data, "compared".data, "competition".data]

def stepKeywords : List (List Char) :=
  ["step".data, "process".data, "timeline".data, "sequence".data,
   "first".data, "then".data, "finally".data]

/-- The keyword set the market branch filters its sentences by (lines
153–157); note it differs from `marketKeywords` (`potential` replaces
`expansion`). -/
def opportunityKeywords : List (List Char) :=
  ["growth".data, "opportunity".data, "potential".data, "market".data]

/-- Branch 1 entity extraction: split on `[,.;]`, keep fragments with
non-empty trim, first 4, each trimmed then sanitized. -/
def partnershipEntities (content : List Char) : List (List Char) :=
  (((jsSplit isEntitySep content).filter fun s => !(trimChars s).isEmpty).take 4).map
    fun s => sanitizeText (trimChars s)

/-- Branch 1 (lines 128–146): radial `graph LR` flowchart. -/
def partnershipFlowchart (content heading : List Char) : List Char :=
  "graph LR\n".data ++
  ("    A((\"".data ++ sanitizeText heading ++ "\"))\n".data) ++
  List.flatten ((partnershipEntities content).enum.map fun p =>
    "    A --> B".data ++ natChars p.1 ++ "[\"".data ++ p.2 ++ "\"]\n".data ++
    ("    style B".data ++ natChars p.1 ++ " fill:#e1f5fe,stroke:#01579b\n".data)) ++
  "    style A fill:#0277bd,stroke:#01579b,color:#fff\n".data

/-- Branch 2 opportunity extraction (lines 153–157): split on `[.!?]`,
keep fragments with non-empty trim that also contain an
`opportunityKeywords` member, first 4, trimmed then sanitized. -/
def marketOpportunities (content : List Char) : List (List Char) :=
  (((jsSplit isSentenceSep content).filter fun s =>
      !(trimChars s).isEmpty && containsKeywords s opportunityKeywords).take 4).map
    fun s => sanitizeText (trimChars s)

/-- Branch 2 (lines 149–166): top-down `graph TD` flowchart. -/
def marketFlowchart (content heading : List Char) : List Char :=
  "graph TD\n".data ++
  ("    M((\"".data ++ sanitizeText heading ++ "\"))\n".data) ++
  List.flatten ((marketOpportunities content).enum.map fun p =>
    "    M --> O".data ++ natChars p.1 ++ "[\"".data ++ p.2 ++ "\"]\n".data ++
    ("    style O".data ++ natChars p.1 ++ " fill:#f3e5f5,stroke:#4a148c\n".data)) ++
  "    style M fill:#7b1fa2,stroke:#4a148c,color:#fff\n".data

/-- Branch 3 aspect extraction: split on `[.!?]`, non-empty trims,
first 3, trimmed then sanitized. -/
def comparisonAspects (content : List Char) : List (List Char) :=
  (((jsSplit isSentenceSep content).filter fun s => !(trimChars s).isEmpty).take 3).map
    fun s => sanitizeText (trimChars s)

/-- Branch 3 (lines 169–194): `graph TB` chain in a `Comparison` subgraph
(the heading is not used by this branch). -/
def comparisonFlowchart (content : List Char) : List Char :=
  "graph TB\n".data ++
  "    subgraph Comparison\n".data ++
  List.flatten ((comparisonAspects content).enum.map fun p =>
    "    A".data ++ natChars p.1 ++ "[\"".data ++ p.2 ++ "\"]\n".data) ++
  List.flatten ((List.range ((comparisonAspects content).length - 1)).map fun i =>
    "    A".data ++ natChars i ++ " --> A".data ++ natChars (i + 1) ++ "\n".data) ++
  "    end\n".data ++
  "    style Comparison fill:#f5f5f5,stroke:#333,stroke-width:2px\n".data ++
  List.flatten ((comparisonAspects content).enum.map fun p =>
    "    style A".data ++ natChars p.1 ++ " fill:#e8eaf6,stroke:#1a237e\n".data)

/-- Branch 4 extraction: split on `[.!?]`, non-empty trims, first 5,
trimmed then sanitized. -/
def processSteps (content : List Char) : List (List Char) :=
  (((jsSplit isSentenceSep content).filter fun s => !(trimChars s).isEmpty).take 5).map
    fun s => sanitizeText (trimChars s)

/-- Branch 4 (lines 197–218): `graph TD` chain, node and edge interleaved
per step, then the style lines (the heading is not used). -/
def stepFlowchart (content : List Char) : List Char :=
  "graph TD\n".data ++
  List.flatten ((processSteps content).enum.map fun p =>
    "    S".data ++ natChars p.1 ++ "[\"".data ++ p.2 ++ "\"]\n".data ++
    (if 0 < p.1 then
      "    S".data ++ natChars (p.1 - 1) ++ " --> S".data ++ natChars p.1 ++ "\n".data
     else [])) ++
  List.flatten ((processSteps content).enum.map fun p =>
    "    style S".data ++ natChars p.1 ++ " fill:#fff3e0,stroke:#e65100\n".data)

/-- Default-branch extraction (lines 221–224): split on `[.!?]`, keep
fragments with non-empty trim, first 5 — the raw fragments, not trimmed. -/
def keyPointsOf (content : List Char) : List (List Char) :=
  ((jsSplit isSentenceSep content).filter fun s => !(trimChars s).isEmpty).take 5

/-- A mind-map leaf (line 231): `substring(0, 50)` plus `'...'` when the
raw fragment is longer than 50, sanitized afterwards. -/
def mindmapNodeText (point : List Char) : List Char :=
  sanitizeText (point.take 50 ++ (if 50 < point.length then "...".data else []))

/-- Default branch (lines 226–236): radial mind map. -/
def mindmapDiagram (content heading : List Char) : List Char :=
  "mindmap\n".data ++
  ("  root((".data ++ sanitizeText heading ++ "))\n".data) ++
  List.flatten ((keyPointsOf content).map fun point =>
    "    ".data ++ mindmapNodeText point ++ "\n".data)

/-- Line 239: the fallback when even the default branch has nothing. -/
def placeholderDiagram : List Char :=
  "graph TD\n    A[\"No content to visualize\"]".data

/-- part_002 lines 112–240. -/
def generateMermaidCode (content heading : List Char) : List Char :=
  if containsKeywords content partnershipKeywords then
    partnershipFlowchart content heading
  else if containsKeywords content marketKeywords then
    marketFlowchart content heading
  else if containsKeywords content competitiveKeywords then
    comparisonFlowchart content
  else if containsKeywords content stepKeywords then
    stepFlowchart content
  else if 0 < (keyPointsOf content).length then
    mindmapDiagram content heading
  else
    placeholderDiagram

/-! ## The segmenter `findHeadingsAndContent` (part_002 lines 394–433) -/

structure AnimationSection where
  heading : List Char
  lineIndex : Nat
  content : List Char
deriving Repr, DecidableEq

/-- `line.startsWith('#')`. -/
def lineIsHeading (l : List Char) : Bool :=
  match l with
  | [] => false
  | c :: _ => c = '#'

/-- Length of the maximal leading `#` run. -/
def hashRunLength (l : List Char) : Nat := (l.takeWhile fun c => c = '#').length

/-- The line after its leading `#` run. -/
def afterHashRun (l : List Char) : List Char := l.drop (hashRunLength l)

/-- Length of the maximal whitespace run following the `#` run. -/
def wsRunLength (l : List Char) : Nat :=
  ((afterHashRun l).takeWhile isJsWhitespace).length

/-- `line.replace(/^#+\s+/, '')` — the anchored regex matches exactly
when the maximal leading `#` run is non-empty and is followed by at
least one whitespace character; the greedy match removes that run and
the maximal whitespace run after it, otherwise the line is unchanged. -/
def stripHeadingMarkers (l : List Char) : List Char :=
  if 0 < hashRunLength l ∧ 0 < wsRunLength l then
    (afterHashRun l).drop (wsRunLength l)
  else l

/-- `sections[sections.length - 1].content = content` — rewrite the last
element's content (the source never reaches this with an empty array). -/
def setLastContent : List AnimationSection → List Char → List AnimationSection
  | [], _ => []
  | [s], c => [{ s with content := c }]
  | s :: rest, c => s :: setLastContent rest c

/-- The body of the `forEach` callback (lines 399–419): on a heading
line, close out the previous open section — assign it the trimmed join
of the lines strictly between the two headings, or pop it when that trim
is empty — and push a fresh section; `cur` is the JS
`currentHeadingIndex` with `none` for the `-1` sentinel. -/
def segStep (lines : List (List Char)) (sections : List AnimationSection)
    (cur : Option Nat) (idx : Nat) (line : List Char) :
    List AnimationSection × Option Nat :=
  if lineIsHeading line then
    let closed :=
      match cur with
      | none => sections
      | some h =>
        let content :=
          trimChars (List.intercalate ['\n'] ((lines.drop (h + 1)).take (idx - (h + 1))))
        if content.isEmpty then sections.dropLast else setLastContent sections content
    (closed ++ [{ heading := stripHeadingMarkers line, lineIndex := idx, content := [] }],
     some idx)
  else (sections, cur)

/-- `lines.forEach((line, index) => ...)` as a recursion carrying the
running index. -/
def segRun (lines : List (List Char)) :
    Nat → List (List Char) → List AnimationSection → Option Nat →
    List AnimationSection × Option Nat
  | _, [], sections, cur => (sections, cur)
  | idx, line :: rest, sections, cur =>
    let st := segStep lines sections cur idx line
    segRun lines (idx + 1) rest st.1 st.2

/-- The close-out of the last open section after the scan (lines
422–430): it runs only when `currentHeadingIndex < lines.length - 1`,
and assigns the last section the trimmed join of all remaining lines, or
pops it when that trim is empty. -/
def segFinish (lines : List (List Char))
    (st : List AnimationSection × Option Nat) : List AnimationSection :=
  match st.2 with
  | none => st.1
  | some h =>
    if h < lines.length - 1 then
      if (trimChars (List.intercalate ['\n'] (lines.drop (h + 1)))).isEmpty then
        st.1.dropLast
      else setLastContent st.1 (trimChars (List.intercalate ['\n'] (lines.drop (h + 1))))
    else st.1

/-- part_002 lines 394–433. -/
def findHeadingsAndContent (markdown : List Char) : List AnimationSection :=
  segFinish (splitLines markdown)
    (segRun (splitLines markdown) 0 (splitLines markdown) [] none)

/-! ## Title inference `generateTitleFromContent` (part_002 lines 303–319)

The source searches `content.match(/^#\s+(.+)$/m)`.  With the multiline
flag the anchor `^` matches at the string start and right after every
line terminator; the class after `#` is general whitespace, so its
greedy run may cross line terminators; the dot matches any
non-terminator.  Backtracking over the whitespace run means a match at
an anchor exists iff the `#` is followed by at least one whitespace
character and then either a non-whitespace non-terminator character
(capture: up to the next terminator) or, when whitespace runs to the end
of the string, a later whitespace character that is itself not a
terminator (capture: exactly that character, as every character after it
is a terminator). -/

/-- The attempted match at one anchor, given the text after the `#`. -/
def matchAfterHash (t : List Char) : Option (List Char) :=
  let ws := t.takeWhile isJsWhitespace
  if ws.length = 0 then none
  else if ws.length < t.length then
    some ((t.drop ws.length).takeWhile fun c => !isJsLineTerminator c)
  else
    match (t.drop 1).reverse.find? fun c => !isJsLineTerminator c with
    | some c => some [c]
    | none => none

/-- `content.match(/^#\\s+(.+)$/m)`, returning capture group 1 of the
first (leftmost) match.  The multiline scan walks the string one
character at a time, carrying whether the current position is a `^`
anchor (the string start, or the position right after a line
terminator); at an anchor holding `#` it attempts the rest of the
pattern. -/
def scanHeading : Bool → List Char → Option (List Char)
  | _, [] => none
  | atStart, c :: rest =>
    match (if atStart && c = '#' then matchAfterHash rest else none) with
    | some cap => some cap
    | none => scanHeading (isJsLineTerminator c) rest

def regexHeadingMatch (s : List Char) : Option (List Char) :=
  scanHeading true s

/-- part_002 lines 303–319. -/
def generateTitleFromContent (content : List Char) : List Char :=
  match regexHeadingMatch content with
  | some cap => trimChars cap
  | none =>
    let firstLine := trimChars ((splitLines content).headD [])
    if 0 < firstLine.length then
      if 50 < firstLine.length then firstLine.take 47 ++ "...".data
      else firstLine
    else "Untitled Report".data

/-! ### Specification-side title inference

A second, independent description of the same contract, following the
amended specification wording: the match used is the one at the *first*
(leftmost) line-start position whose suffix matches `#`, whitespace
(possibly crossing line terminators), then text; the fallbacks are as in
§4.3 of the specification. -/

/-- `p` is a line start: the string start, or right after a terminator. -/
def lineStartAt (s : List Char) (p : Nat) : Bool :=
  if p = 0 then true else (s[p - 1]?).any isJsLineTerminator

/-- The pattern matches at position `p`. -/
def hashMatchAt (s : List Char) (p : Nat) : Bool :=
  (s[p]? == some '#') && (matchAfterHash (s.drop (p + 1))).isSome

/-- The leftmost matching anchor position. -/
def firstHashMatchPos (s : List Char) : Option Nat :=
  (List.range s.length).find? fun p => lineStartAt s p && hashMatchAt s p

/-- Capture group 1 of the match at `p`. -/
def captureAt (s : List Char) (p : Nat) : List Char :=
  (matchAfterHash (s.drop (p + 1))).getD []

/-- Title inference as the amended specification words it. -/
def titleFromSpec (content : List Char) : List Char :=
  match firstHashMatchPos content with
  | some p => trimChars (captureAt content p)
  | none =>
    let firstLine := trimChars ((splitLines content).headD [])
    if 0 < firstLine.length then
      if 50 < firstLine.length then firstLine.take 47 ++ "...".data
      else firstLine
    else "Untitled Report".data

/-! ## `saveReport` (firebaseUtils.ts lines 70–77)

The document handed to the store is the spread of the caller's report
with `createdAt` and `updatedAt` replaced by `new Date()` values taken
at save time; the two `Date` constructions are modelled as explicit
timestamp parameters. -/

structure ReportInput where
  userId : List Char
  title : List Char
  content : List Char
  animations : List AnimationSection
  createdAt : Nat
  updatedAt : Nat
deriving Repr, DecidableEq

/-- The object passed to `addDoc`:
`{...report, createdAt: new Date(), updatedAt: new Date()}`. -/
def savedReportData (report : ReportInput) (saveTimeCreated saveTimeUpdated : Nat) :
    ReportInput :=
  { report with createdAt := saveTimeCreated, updatedAt := saveTimeUpdated }

/-! ## Analysis predicates -/

/-- Output order of two sections agrees with document order. -/
def sectionBefore (a b : AnimationSection) : Prop := a.lineIndex < b.lineIndex

/-- A section is anchored to a heading line of the split document and
carries that line's stripped heading text. -/
def SecOk (lines : List (List Char)) (s : AnimationSection) : Prop :=
  ∃ l, lines[s.lineIndex]? = some l ∧ lineIsHeading l = true ∧
    s.heading = stripHeadingMarkers l

/-- The first line of a generated diagram program. -/
def firstLineOf (l : List Char) : List Char :=
  l.takeWhile fun c => !(c = '\n')

/-- A character that sanitization leaves alone: not a double quote, not
a bracket or parenthesis, and not whitespace. -/
def sanitizeNeutral (c : Char) : Bool :=
  !(c = '"' || c = '[' || c = ']' || c = '(' || c = ')' || isJsWhitespace c)

/-! # Theorems -/

/-! ## Character-class and trim lemmas -/

theorem jsWhitespace_of_lineTerminator {c : Char}
    (h : isJsLineTerminator c = true) : isJsWhitespace c = true := by
  simp only [isJsLineTerminator, Bool.or_eq_true, decide_eq_true_eq] at h
  rcases h with ((h | h) | h) | h <;> subst h <;> decide

theorem dropWhile_head?_false {p : Char → Bool} {l : List Char} {c : Char}
    (h : (l.dropWhile p).head? = some c) : p c = false := by
  have h2 := List.head?_dropWhile_not p l
  rw [h] at h2
  exact h2

theorem dropWhile_eq_self_of_head {p : Char → Bool} {l : List Char}
    (h : ∀ c, l.head? = some c → p c = false) : l.dropWhile p = l := by
  cases l with
  | nil => rfl
  | cons a t => exact List.dropWhile_cons_of_neg (by simp [h a rfl])

theorem dropWhile_idem (p : Char → Bool) (l : List Char) :
    (l.dropWhile p).dropWhile p = l.dropWhile p :=
  dropWhile_eq_self_of_head fun _ hc => dropWhile_head?_false hc

theorem dropWhile_eq_self_of_all {p : Char → Bool} {l : List Char}
    (h : ∀ c ∈ l, p c = false) : l.dropWhile p = l := by
  refine dropWhile_eq_self_of_head fun c hc => h c ?_
  cases l with
  | nil => simp at hc
  | cons a t =>
    simp only [List.head?_cons, Option.some.injEq] at hc
    exact hc ▸ List.mem_cons_self a t

theorem mem_of_mem_trimChars {c : Char} {l : List Char} (h : c ∈ trimChars l) : c ∈ l := by
  unfold trimChars at h
  rw [List.mem_reverse] at h
  have h2 := (List.dropWhile_sublist isJsWhitespace).mem h
  rw [List.mem_reverse] at h2
  exact (List.dropWhile_sublist isJsWhitespace).mem h2

theorem trimChars_getLast?_false {l : List Char} {c : Char}
    (h : (trimChars l).getLast? = some c) : isJsWhitespace c = false := by
  unfold trimChars at h
  rw [List.getLast?_reverse] at h
  exact dropWhile_head?_false h

theorem trimChars_head?_false {l : List Char} {c : Char}
    (h : (trimChars l).head? = some c) : isJsWhitespace c = false := by
  unfold trimChars at h
  rw [List.head?_reverse] at h
  set v := ((l.dropWhile isJsWhitespace).reverse.dropWhile isJsWhitespace) with hv
  have hvne : v ≠ [] := by
    intro he
    rw [he] at h
    simp at h
  obtain ⟨w, hw⟩ := List.dropWhile_suffix (l := (l.dropWhile isJsWhitespace).reverse)
    (p := isJsWhitespace)
  have : (l.dropWhile isJsWhitespace).reverse.getLast? = v.getLast? := by
    rw [← hw]
    exact List.getLast?_append_of_ne_nil w hvne
  rw [List.getLast?_reverse] at this
  rw [h] at this
  exact dropWhile_head?_false this

theorem trimChars_idem (l : List Char) : trimChars (trimChars l) = trimChars l := by
  have h1 : (trimChars l).dropWhile isJsWhitespace = trimChars l :=
    dropWhile_eq_self_of_head fun _ hc => trimChars_head?_false hc
  have h2 : (trimChars l).reverse.dropWhile isJsWhitespace = (trimChars l).reverse :=
    dropWhile_eq_self_of_head fun c hc => by
      rw [List.head?_reverse] at hc
      exact trimChars_getLast?_false hc
  conv_lhs => rw [trimChars, h1, h2, List.reverse_reverse]

theorem trimChars_eq_self_of_all {l : List Char}
    (h : ∀ c ∈ l, isJsWhitespace c = false) : trimChars l = l := by
  unfold trimChars
  rw [dropWhile_eq_self_of_all h,
    dropWhile_eq_self_of_all fun c hc => h c (List.mem_reverse.mp hc),
    List.reverse_reverse]

/-! ## Sanitization lemmas -/

theorem map_eq_self_of_id {α : Type} {f : α → α} {l : List α}
    (h : ∀ c ∈ l, f c = c) : l.map f = l := by
  induction l with
  | nil => rfl
  | cons a t ih =>
    simp only [List.map_cons, h a (List.mem_cons_self a t),
      ih fun x hx => h x (List.mem_cons_of_mem a hx)]

theorem sanitizeText_no_special {c : Char} {l : List Char} (h : c ∈ sanitizeText l) :
    c ≠ '"' ∧ (!(c = '[' || c = ']')) = true ∧ (!(c = '(' || c = ')')) = true := by
  unfold sanitizeText removeParens removeSquareBrackets replaceQuotes at h
  have h1 := mem_of_mem_trimChars h
  obtain ⟨h2, hp⟩ := List.mem_filter.mp h1
  obtain ⟨h3, hb⟩ := List.mem_filter.mp h2
  obtain ⟨d, _, hd⟩ := List.mem_map.mp h3
  refine ⟨?_, hb, hp⟩
  by_cases hd' : d = '"'
  · rw [← hd]
    simp only [hd', if_pos rfl]
    decide
  · rw [← hd]
    simp only [if_neg hd']
    exact hd'

/-- C6: the text-sanitization helper (replace double quotes with single
quotes, strip literal square brackets and parentheses, trim surrounding
whitespace) is idempotent: for every string `s`,
`sanitizeText (sanitizeText s) = sanitizeText s`. -/
theorem sanitizeText_idempotent (s : List Char) :
    sanitizeText (sanitizeText s) = sanitizeText s := by
  have hq : replaceQuotes (sanitizeText s) = sanitizeText s :=
    map_eq_self_of_id fun c hc => by
      have h1 := (sanitizeText_no_special hc).1
      simp only [if_neg h1]
  have hb : removeSquareBrackets (sanitizeText s) = sanitizeText s :=
    List.filter_eq_self.mpr fun c hc => (sanitizeText_no_special hc).2.1
  have hp : removeParens (sanitizeText s) = sanitizeText s :=
    List.filter_eq_self.mpr fun c hc => (sanitizeText_no_special hc).2.2
  calc sanitizeText (sanitizeText s)
      = trimChars (removeParens (removeSquareBrackets (replaceQuotes (sanitizeText s)))) :=
        rfl
    _ = trimChars (sanitizeText s) := by rw [hq, hb, hp]
    _ = trimChars (trimChars (removeParens (removeSquareBrackets (replaceQuotes s)))) := rfl
    _ = trimChars (removeParens (removeSquareBrackets (replaceQuotes s))) := trimChars_idem _
    _ = sanitizeText s := rfl

/-- C10: `saveReport` always overwrites `createdAt` and `updatedAt` with
fresh timestamps taken at save time, discarding any caller-supplied
values, while persisting every other field of the report (`userId`,
`title`, `content`, `animations`) exactly as given. -/
theorem savedReportData_frame (report : ReportInput)
    (callerCreated callerUpdated saveTimeCreated saveTimeUpdated : Nat) :
    (savedReportData report saveTimeCreated saveTimeUpdated).userId = report.userId ∧
    (savedReportData report saveTimeCreated saveTimeUpdated).title = report.title ∧
    (savedReportData report saveTimeCreated saveTimeUpdated).content = report.content ∧
    (savedReportData report saveTimeCreated saveTimeUpdated).animations =
      report.animations ∧
    (savedReportData report saveTimeCreated saveTimeUpdated).createdAt = saveTimeCreated ∧
    (savedReportData report saveTimeCreated saveTimeUpdated).updatedAt = saveTimeUpdated ∧
    savedReportData { report with createdAt := callerCreated, updatedAt := callerUpdated }
        saveTimeCreated saveTimeUpdated =
      savedReportData report saveTimeCreated saveTimeUpdated :=
  ⟨rfl, rfl, rfl, rfl, rfl, rfl, rfl⟩

/-- C1 (failing input): on the one-line document `"# A"`, whose heading
is the last line of the document, the segmenter returns a Section whose
trimmed content is empty, although the claim (and the source's own
comments, part_002 lines 415 and 424) say such a section is not kept. -/
theorem findHeadings_trailing_heading_keeps_empty_section :
    findHeadingsAndContent "# A".data =
      [{ heading := "A".data, lineIndex := 0, content := [] }] ∧
    trimChars [] = [] := by
  constructor
  · rfl
  · rfl

/-- C2 (counterexample): `"expansion"` triggers the market/growth branch
(category 2), the branch extracts zero usable fragments — `expansion` is
not in the branch's own filter list — and the result is the root-only
market diagram, not the `"No content to visualize"` placeholder. -/
theorem generateMermaid_expansion_not_placeholder :
    containsKeywords "expansion".data partnershipKeywords = false ∧
    containsKeywords "expansion".data marketKeywords = true ∧
    marketOpportunities "expansion".data = [] ∧
    generateMermaidCode "expansion".data "H".data =
      "graph TD\n    M((\"H\"))\n    style M fill:#7b1fa2,stroke:#4a148c,color:#fff\n".data ∧
    generateMermaidCode "expansion".data "H".data ≠ placeholderDiagram := by
  refine ⟨by decide, by decide, by decide, by decide, by decide⟩

/-- C3 (counterexample): the heading line `"#X"` has no whitespace after
its `#` run, so `replace(/^#+\s+/, '')` changes nothing and the produced
Section's heading keeps the `#` marker instead of being `"X"`. -/
theorem findHeadings_hash_no_space_keeps_markers :
    findHeadingsAndContent "#X\ntext".data =
      [{ heading := "#X".data, lineIndex := 0, content := "text".data }] ∧
    "#X".data ≠ "X".data := by
  refine ⟨by rfl, by decide⟩

/-- C4 (counterexample): a default-branch sentence of 80 `[` characters
is truncated to its first 50 characters plus `'...'` and only then
sanitized, which strips all the brackets: the rendered leaf is `"..."`
(3 characters), not 50 visible characters plus an ellipsis marker. -/
theorem mindmap_leaf_all_brackets_not_53_chars :
    (List.replicate 80 '[').length = 80 ∧
    generateMermaidCode (List.replicate 80 '[') "N".data =
      "mindmap\n  root((N))\n    ...\n".data ∧
    mindmapNodeText (List.replicate 80 '[') = "...".data ∧
    (mindmapNodeText (List.replicate 80 '[')).length = 3 := by
  refine ⟨by decide, by decide, by decide, by decide⟩

/-- C8 (counterexample): in `"#\nTitle here"` no single line matches
"`#` then space then text" — the first line is a bare `#` — yet the
multiline regex's whitespace class crosses the line break and the code
returns `"Title here"`, not the trimmed first line `"#"`. -/
theorem title_hash_alone_captures_next_line :
    generateTitleFromContent "#\nTitle here".data = "Title here".data ∧
    trimChars ((splitLines "#\nTitle here".data).headD []) = "#".data := by
  refine ⟨by rfl, by rfl⟩

/-! ## Segmenter invariants -/

theorem mem_setLastContent :
    ∀ (ss : List AnimationSection) (c : List Char) (s' : AnimationSection),
      s' ∈ setLastContent ss c →
      ∃ s ∈ ss, s'.heading = s.heading ∧ s'.lineIndex = s.lineIndex
  | [], _, _, h => by simp [setLastContent] at h
  | [s], c, s', h => by
    simp only [setLastContent, List.mem_singleton] at h
    exact ⟨s, List.mem_singleton_self s, by simp [h], by simp [h]⟩
  | a :: b :: t, c, s', h => by
    simp only [setLastContent, List.mem_cons] at h
    rcases h with h | h
    · exact ⟨a, List.mem_cons_self a (b :: t), by simp [h], by simp [h]⟩
    · obtain ⟨s, hs, h1, h2⟩ := mem_setLastContent (b :: t) c s' h
      exact ⟨s, List.mem_cons_of_mem a hs, h1, h2⟩

theorem pairwise_setLastContent :
    ∀ (ss : List AnimationSection) (c : List Char),
      List.Pairwise sectionBefore ss →
      List.Pairwise sectionBefore (setLastContent ss c)
  | [], _, _ => by simp [setLastContent]
  | [s], c, _ => by simp [setLastContent]
  | a :: b :: t, c, h => by
    rw [show setLastContent (a :: b :: t) c = a :: setLastContent (b :: t) c from rfl]
    rcases List.pairwise_cons.mp h with ⟨ha, ht⟩
    refine List.pairwise_cons.mpr ⟨?_, pairwise_setLastContent (b :: t) c ht⟩
    intro s' hs'
    obtain ⟨s, hs, _, h2⟩ := mem_setLastContent (b :: t) c s' hs'
    have h3 := ha s hs
    unfold sectionBefore at h3 ⊢
    rw [h2]
    exact h3

/-- One `forEach` step preserves the segmenter invariant, advancing the
index bound by one. -/
theorem segStep_inv (lines : List (List Char)) (sections : List AnimationSection)
    (cur : Option Nat) (idx : Nat) (line : List Char)
    (hline : lines[idx]? = some line)
    (hpw : List.Pairwise sectionBefore sections)
    (hmem : ∀ s ∈ sections, s.lineIndex < idx ∧ SecOk lines s) :
    List.Pairwise sectionBefore (segStep lines sections cur idx line).1 ∧
    ∀ s ∈ (segStep lines sections cur idx line).1,
      s.lineIndex < idx + 1 ∧ SecOk lines s := by
  unfold segStep
  by_cases hh : lineIsHeading line = true
  · simp only [hh, if_true]
    have hclosed :
        ∀ closed : List AnimationSection,
          List.Pairwise sectionBefore closed →
          (∀ s ∈ closed, s.lineIndex < idx ∧ SecOk lines s) →
          List.Pairwise sectionBefore
            (closed ++ [{ heading := stripHeadingMarkers line, lineIndex := idx,
                          content := [] }]) ∧
          ∀ s ∈ closed ++ [{ heading := stripHeadingMarkers line, lineIndex := idx,
                             content := ([] : List Char) }],
            s.lineIndex < idx + 1 ∧ SecOk lines s := by
      intro closed cpw cmem
      constructor
      · refine List.pairwise_append.mpr ⟨cpw, List.pairwise_singleton _ _, ?_⟩
        intro a ha b hb
        rw [List.mem_singleton] at hb
        subst hb
        exact (cmem a ha).1
      · intro s hs
        rcases List.mem_append.mp hs with hs | hs
        · exact ⟨Nat.lt_succ_of_lt (cmem s hs).1, (cmem s hs).2⟩
        · rw [List.mem_singleton] at hs
          subst hs
          exact ⟨Nat.lt_succ_self idx, ⟨line, hline, hh, rfl⟩⟩
    rcases cur with _ | h
    · exact hclosed sections hpw hmem
    · simp only []
      by_cases he :
          (trimChars (List.intercalate ['\n']
            ((lines.drop (h + 1)).take (idx - (h + 1))))).isEmpty = true
      · simp only [he, if_true]
        refine hclosed sections.dropLast (hpw.sublist (List.dropLast_sublist sections)) ?_
        intro s hs
        exact hmem s ((List.dropLast_sublist sections).subset hs)
      · simp only [Bool.not_eq_true] at he
        simp only [he, Bool.false_eq_true, if_false]
        refine hclosed _ (pairwise_setLastContent sections _ hpw) ?_
        intro s' hs'
        obtain ⟨s, hs, h1, h2⟩ := mem_setLastContent sections _ s' hs'
        obtain ⟨hsi, l, hl1, hl2, hl3⟩ := hmem s hs
        exact ⟨h2 ▸ hsi, l, by rw [h2]; exact hl1, hl2, by rw [h1]; exact hl3⟩
  · simp only [Bool.not_eq_true] at hh
    simp only [hh, Bool.false_eq_true, if_false]
    exact ⟨hpw, fun s hs => ⟨Nat.lt_succ_of_lt (hmem s hs).1, (hmem s hs).2⟩⟩

/-- The whole scan preserves the invariant. -/
theorem segRun_inv (lines : List (List Char)) :
    ∀ (rest : List (List Char)) (idx : Nat) (sections : List AnimationSection)
      (cur : Option Nat),
      rest = lines.drop idx →
      List.Pairwise sectionBefore sections →
      (∀ s ∈ sections, s.lineIndex < idx ∧ SecOk lines s) →
      List.Pairwise sectionBefore (segRun lines idx rest sections cur).1 ∧
      ∀ s ∈ (segRun lines idx rest sections cur).1, SecOk lines s
  | [], idx, sections, cur, _, hpw, hmem => by
    exact ⟨hpw, fun s hs => (hmem s hs).2⟩
  | line :: rest', idx, sections, cur, hdrop, hpw, hmem => by
    have hline : lines[idx]? = some line := by
      have h0 : (lines.drop idx)[0]? = lines[idx + 0]? := List.getElem?_drop lines idx 0
      rw [← hdrop] at h0
      simpa using h0.symm
    have hrest : rest' = lines.drop (idx + 1) := by
      have : (lines.drop idx).drop 1 = lines.drop (idx + 1) := List.drop_drop 1 idx lines
      rw [← hdrop] at this
      simpa using this
    obtain ⟨hpw', hmem'⟩ := segStep_inv lines sections cur idx line hline hpw hmem
    exact segRun_inv lines rest' (idx + 1) _ _ hrest hpw' hmem'

/-- The segmenter's result satisfies the invariant: strict ordering and
line anchoring. -/
theorem segFinish_inv (lines : List (List Char))
    (st : List AnimationSection × Option Nat)
    (hpw : List.Pairwise sectionBefore st.1)
    (hmem : ∀ s ∈ st.1, SecOk lines s) :
    List.Pairwise sectionBefore (segFinish lines st) ∧
    ∀ s ∈ segFinish lines st, SecOk lines s := by
  unfold segFinish
  split
  · exact ⟨hpw, hmem⟩
  · split
    · split
      · exact ⟨hpw.sublist (List.dropLast_sublist _),
          fun s hs => hmem s ((List.dropLast_sublist _).subset hs)⟩
      · constructor
        · exact pairwise_setLastContent _ _ hpw
        · intro s' hs'
          obtain ⟨s, hs, h1, h2⟩ := mem_setLastContent _ _ s' hs'
          obtain ⟨l, hl1, hl2, hl3⟩ := hmem s hs
          exact ⟨l, by rw [h2]; exact hl1, hl2, by rw [h1]; exact hl3⟩
    · exact ⟨hpw, hmem⟩

/-- The segmenter's result satisfies the invariant: strict ordering and
line anchoring. -/
theorem findHeadings_inv (m : List Char) :
    List.Pairwise sectionBefore (findHeadingsAndContent m) ∧
    ∀ s ∈ findHeadingsAndContent m, SecOk (splitLines m) s := by
  obtain ⟨hpw, hmem⟩ := segRun_inv (splitLines m) (splitLines m) 0 [] none
    (by simp) (by simp) (by simp)
  exact segFinish_inv (splitLines m) _ hpw hmem

/-- C7: for every Markdown string, the `lineIndex` values of the
returned Sections, read in output order, form a strictly increasing
sequence, so sections never overlap. -/
theorem findHeadings_lineIndex_strictly_increasing (m : List Char) :
    List.Pairwise (· < ·) ((findHeadingsAndContent m).map AnimationSection.lineIndex) := by
  rw [List.pairwise_map]
  exact (findHeadings_inv m).1

/-! ## Heading-marker stripping -/

theorem drop_takeWhile_length (p : Char → Bool) :
    ∀ l : List Char, l.drop (l.takeWhile p).length = l.dropWhile p
  | [] => rfl
  | c :: t => by
    by_cases h : p c
    · simp only [List.takeWhile_cons_of_pos h, List.dropWhile_cons_of_pos h,
        List.length_cons, List.drop_succ_cons]
      exact drop_takeWhile_length p t
    · simp [List.takeWhile_cons_of_neg h, List.dropWhile_cons_of_neg h]

/-- Case analysis of the `replace(/^#+\s+/, '')` embedding on a heading
line, phrased through the head of the text after the `#` run. -/
theorem stripHeadingMarkers_cases (l : List Char) (hl : lineIsHeading l = true)
    (c : Char) (hc : (l.dropWhile fun c => c = '#').head? = some c) :
    (isJsWhitespace c = true →
      stripHeadingMarkers l = (l.dropWhile fun c => c = '#').dropWhile isJsWhitespace) ∧
    (isJsWhitespace c = false → stripHeadingMarkers l = l) := by
  have e1 : afterHashRun l = l.dropWhile fun c => c = '#' :=
    drop_takeWhile_length _ l
  have hashpos : 0 < hashRunLength l := by
    cases l with
    | nil => simp [lineIsHeading] at hl
    | cons a t =>
      simp only [lineIsHeading, decide_eq_true_eq] at hl
      subst hl
      simp [hashRunLength, List.takeWhile_cons_of_pos]
  obtain ⟨aft, haft⟩ : ∃ aft, (l.dropWhile fun c => c = '#') = c :: aft := by
    cases hda : (l.dropWhile fun c => c = '#') with
    | nil => rw [hda] at hc; simp at hc
    | cons a t =>
      rw [hda] at hc
      simp only [List.head?_cons, Option.some.injEq] at hc
      exact ⟨t, by rw [hc]⟩
  constructor
  · intro hw
    have hws : wsRunLength l = (aft.takeWhile isJsWhitespace).length + 1 := by
      unfold wsRunLength
      rw [e1, haft]
      simp [List.takeWhile_cons_of_pos hw]
    unfold stripHeadingMarkers
    rw [if_pos ⟨hashpos, by rw [hws]; exact Nat.succ_pos _⟩, e1, haft, hws,
      List.drop_succ_cons, List.dropWhile_cons_of_pos hw]
    exact drop_takeWhile_length isJsWhitespace aft
  · intro hw
    have hws : wsRunLength l = 0 := by
      unfold wsRunLength
      rw [e1, haft, List.takeWhile_cons_of_neg (by simp [hw])]
      rfl
    have hcond : ¬(0 < hashRunLength l ∧ 0 < wsRunLength l) := by
      rw [hws]
      rintro ⟨-, h⟩
      exact absurd h (lt_irrefl 0)
    unfold stripHeadingMarkers
    rw [if_neg hcond]

/-- C3 (amended): every Section's heading is its source heading line
with `replace(/^#+\s+/, '')` applied: when at least one whitespace
character follows the line's `#` run, the run and the following
whitespace run are removed; when the character after the `#` run is not
whitespace, the heading is the entire line unchanged, `#` markers
included. -/
theorem findHeadings_heading_stripped (m : List Char) (s : AnimationSection)
    (hs : s ∈ findHeadingsAndContent m) :
    ∃ l, (splitLines m)[s.lineIndex]? = some l ∧ lineIsHeading l = true ∧
      s.heading = stripHeadingMarkers l ∧
      ∀ c, (l.dropWhile fun c => c = '#').head? = some c →
        (isJsWhitespace c = true →
          s.heading = (l.dropWhile fun c => c = '#').dropWhile isJsWhitespace) ∧
        (isJsWhitespace c = false → s.heading = l) := by
  obtain ⟨l, hl1, hl2, hl3⟩ := (findHeadings_inv m).2 s hs
  refine ⟨l, hl1, hl2, hl3, fun c hc => ?_⟩
  obtain ⟨h1, h2⟩ := stripHeadingMarkers_cases l hl2 c hc
  exact ⟨fun hw => hl3.trans (h1 hw), fun hw => hl3.trans (h2 hw)⟩

/-- Witness for the amended C3 at the concrete document `"# T\nx"` and
its only Section. -/
theorem findHeadings_heading_stripped_witness :
    ∃ l, (splitLines "# T\nx".data)[
        ({ heading := "T".data, lineIndex := 0, content := "x".data } :
          AnimationSection).lineIndex]? = some l ∧
      lineIsHeading l = true ∧
      ({ heading := "T".data, lineIndex := 0, content := "x".data } :
        AnimationSection).heading = stripHeadingMarkers l ∧
      ∀ c, (l.dropWhile fun c => c = '#').head? = some c →
        (isJsWhitespace c = true →
          ({ heading := "T".data, lineIndex := 0, content := "x".data } :
            AnimationSection).heading =
            (l.dropWhile fun c => c = '#').dropWhile isJsWhitespace) ∧
        (isJsWhitespace c = false →
          ({ heading := "T".data, lineIndex := 0, content := "x".data } :
            AnimationSection).heading = l) :=
  findHeadings_heading_stripped "# T\nx".data
    { heading := "T".data, lineIndex := 0, content := "x".data } (by decide)

/-! ## Diagram-program shape lemmas -/

theorem takeWhile_append_of_break {p : Char → Bool} {a : List Char} (b : List Char)
    (h : ∃ x ∈ a, p x = false) : (a ++ b).takeWhile p = a.takeWhile p := by
  induction a with
  | nil => simp at h
  | cons c t ih =>
    by_cases hc : p c
    · simp only [List.cons_append, List.takeWhile_cons_of_pos hc]
      obtain ⟨x, hx, hpx⟩ := h
      rcases List.mem_cons.mp hx with rfl | hx
    
      · rw [hc] at hpx
        exact absurd hpx (by simp)
      · rw [ih ⟨x, hx, hpx⟩]
    · simp [List.takeWhile_cons_of_neg hc]

theorem ne_nil_of_firstLineOf_ne_nil {x : List Char} (h : firstLineOf x ≠ []) :
    x ≠ [] := fun he => h (by rw [he]; rfl)

theorem firstLineOf_partnership (content heading : List Char) :
    firstLineOf (partnershipFlowchart content heading) = "graph LR".data := by
  unfold partnershipFlowchart firstLineOf
  simp only [List.append_assoc]
  rw [takeWhile_append_of_break _ ⟨'\n', by decide, by decide⟩]
  decide

theorem firstLineOf_market (content heading : List Char) :
    firstLineOf (marketFlowchart content heading) = "graph TD".data := by
  unfold marketFlowchart firstLineOf
  simp only [List.append_assoc]
  rw [takeWhile_append_of_break _ ⟨'\n', by decide, by decide⟩]
  decide

theorem firstLineOf_comparison (content : List Char) :
    firstLineOf (comparisonFlowchart content) = "graph TB".data := by
  unfold comparisonFlowchart firstLineOf
  simp only [List.append_assoc]
  rw [takeWhile_append_of_break _ ⟨'\n', by decide, by decide⟩]
  decide

theorem firstLineOf_step (content : List Char) :
    firstLineOf (stepFlowchart content) = "graph TD".data := by
  unfold stepFlowchart firstLineOf
  simp only [List.append_assoc]
  rw [takeWhile_append_of_break _ ⟨'\n', by decide, by decide⟩]
  decide

theorem firstLineOf_mindmap (content heading : List Char) :
    firstLineOf (mindmapDiagram content heading) = "mindmap".data := by
  unfold mindmapDiagram firstLineOf
  simp only [List.append_assoc]
  rw [takeWhile_append_of_break _ ⟨'\n', by decide, by decide⟩]
  decide

/-- C9: for every content string and heading, `generateMermaidCode`
returns a non-empty string whose first line is one of exactly four
diagram headers — `graph LR`, `graph TD`, `graph TB`, or `mindmap`; no
other diagram kind is ever emitted. -/
theorem generateMermaid_header_shape (content heading : List Char) :
    generateMermaidCode content heading ≠ [] ∧
    firstLineOf (generateMermaidCode content heading) ∈
      ["graph LR".data, "graph TD".data, "graph TB".data, "mindmap".data] := by
  unfold generateMermaidCode
  split
  · have h := firstLineOf_partnership content heading
    exact ⟨ne_nil_of_firstLineOf_ne_nil (by rw [h]; decide), by rw [h]; decide⟩
  · split
    · have h := firstLineOf_market content heading
      exact ⟨ne_nil_of_firstLineOf_ne_nil (by rw [h]; decide), by rw [h]; decide⟩
    · split
      · have h := firstLineOf_comparison content
        exact ⟨ne_nil_of_firstLineOf_ne_nil (by rw [h]; decide), by rw [h]; decide⟩
      · split
        · have h := firstLineOf_step content
          exact ⟨ne_nil_of_firstLineOf_ne_nil (by rw [h]; decide), by rw [h]; decide⟩
        · split
          · have h := firstLineOf_mindmap content heading
            exact ⟨ne_nil_of_firstLineOf_ne_nil (by rw [h]; decide), by rw [h]; decide⟩
          · exact ⟨by decide, by decide⟩

/-- C5: content containing (case-insensitively) both a partnership
keyword and a market keyword is classified by the first check: the
result is the category-1 partnership radial flowchart — a `graph LR`
program rooted at the sanitized heading — and never the category-2
market diagram. -/
theorem generateMermaid_partnership_priority (content heading : List Char)
    (hp : containsKeywords content partnershipKeywords = true)
    (_hm : containsKeywords content marketKeywords = true) :
    generateMermaidCode content heading = partnershipFlowchart content heading ∧
    firstLineOf (generateMermaidCode content heading) = "graph LR".data ∧
    generateMermaidCode content heading ≠ marketFlowchart content heading := by
  have he : generateMermaidCode content heading = partnershipFlowchart content heading := by
    unfold generateMermaidCode
    rw [if_pos hp]
  refine ⟨he, by rw [he]; exact firstLineOf_partnership content heading, ?_⟩
  rw [he]
  intro hcontra
  have h2 := congrArg firstLineOf hcontra
  rw [firstLineOf_partnership, firstLineOf_market] at h2
  exact absurd h2 (by decide)

/-- Witness for C5 at concrete content holding both an `agreement` and a
`market` keyword. -/
theorem generateMermaid_partnership_priority_witness :
    generateMermaidCode "Trade agreement for the market".data "Deal".data =
      partnershipFlowchart "Trade agreement for the market".data "Deal".data ∧
    firstLineOf (generateMermaidCode "Trade agreement for the market".data "Deal".data) =
      "graph LR".data ∧
    generateMermaidCode "Trade agreement for the market".data "Deal".data ≠
      marketFlowchart "Trade agreement for the market".data "Deal".data :=
  generateMermaid_partnership_priority "Trade agreement for the market".data "Deal".data
    (by decide) (by decide)

/-! ## Placeholder characterization (C2) -/

theorem ne_of_take_ne {k : Nat} {a b : List Char} (h : a.take k ≠ b.take k) : a ≠ b :=
  fun he => h (he ▸ rfl)

theorem market_take14 (content heading : List Char) :
    (marketFlowchart content heading).take 14 = "graph TD\n    M".data := by
  unfold marketFlowchart
  simp only [List.append_assoc]
  rw [List.take_append_eq_append_take]
  rw [show ("graph TD\n".data.take 14) = "graph TD\n".data from by decide,
    show (14 - "graph TD\n".data.length) = 5 from by decide]
  rw [List.take_append_eq_append_take]
  rw [show ("    M((\"".data.take 5) = "    M".data from by decide,
    show (5 - "    M((\"".data.length) = 0 from by decide]
  simp only [List.take_zero, List.append_nil]
  decide

theorem step_take14 (content : List Char) :
    (stepFlowchart content).take 14 =
      if processSteps content = [] then "graph TD\n".data else "graph TD\n    S".data := by
  unfold stepFlowchart
  cases hs : processSteps content with
  | nil =>
    rw [if_pos rfl]
    simp only [List.enum_nil, List.map_nil, List.flatten_nil, List.append_nil]
    decide
  | cons s t =>
    rw [if_neg (List.cons_ne_nil s t)]
    simp only [List.enum_cons, List.map_cons, List.flatten_cons, List.append_assoc]
    rw [List.take_append_eq_append_take]
    rw [show ("graph TD\n".data.take 14) = "graph TD\n".data from by decide,
      show (14 - "graph TD\n".data.length) = 5 from by decide]
    rw [List.take_append_eq_append_take]
    rw [show ("    S".data.take 5) = "    S".data from by decide,
      show (5 - "    S".data.length) = 0 from by decide]
    simp only [List.take_zero, List.append_nil]
    decide

theorem market_ne_placeholder (content heading : List Char) :
    marketFlowchart content heading ≠ placeholderDiagram := by
  refine ne_of_take_ne (k := 14) ?_
  rw [market_take14]
  decide

theorem step_ne_placeholder (content : List Char) :
    stepFlowchart content ≠ placeholderDiagram := by
  refine ne_of_take_ne (k := 14) ?_
  rw [step_take14]
  split <;> decide

/-- C2 (amended): `generateMermaidCode` returns the single
`"No content to visualize"` placeholder exactly when no keyword category
matches and the content splits into zero sentences with non-empty trim;
a keyword branch whose extraction yields zero fragments instead emits
its diagram with only the styled root or empty frame. -/
theorem generateMermaid_placeholder_iff (content heading : List Char) :
    generateMermaidCode content heading = placeholderDiagram ↔
      (containsKeywords content partnershipKeywords = false ∧
       containsKeywords content marketKeywords = false ∧
       containsKeywords content competitiveKeywords = false ∧
       containsKeywords content stepKeywords = false ∧
       keyPointsOf content = []) := by
  constructor
  · intro h
    unfold generateMermaidCode at h
    by_cases h1 : containsKeywords content partnershipKeywords = true
    · rw [if_pos h1] at h
      exfalso
      have h' := congrArg firstLineOf h
      rw [firstLineOf_partnership] at h'
      exact absurd h' (by decide)
    · rw [if_neg h1] at h
      by_cases h2 : containsKeywords content marketKeywords = true
      · rw [if_pos h2] at h
        exact absurd h (market_ne_placeholder content heading)
      · rw [if_neg h2] at h
        by_cases h3 : containsKeywords content competitiveKeywords = true
        · rw [if_pos h3] at h
          exfalso
          have h' := congrArg firstLineOf h
          rw [firstLineOf_comparison] at h'
          exact absurd h' (by decide)
        · rw [if_neg h3] at h
          by_cases h4 : containsKeywords content stepKeywords = true
          · rw [if_pos h4] at h
            exact absurd h (step_ne_placeholder content)
          · rw [if_neg h4] at h
            by_cases h5 : 0 < (keyPointsOf content).length
            · rw [if_pos h5] at h
              exfalso
              have h' := congrArg firstLineOf h
              rw [firstLineOf_mindmap] at h'
              exact absurd h' (by decide)
            · refine ⟨by simpa using h1, by simpa using h2, by simpa using h3,
                by simpa using h4, List.length_eq_zero.mp (Nat.eq_zero_of_not_pos h5)⟩
  · rintro ⟨h1, h2, h3, h4, h5⟩
    unfold generateMermaidCode
    rw [if_neg (by simp [h1]), if_neg (by simp [h2]), if_neg (by simp [h3]),
      if_neg (by simp [h4]), if_neg (by simp [h5])]

/-! ## Mind-map truncation (C4) -/

theorem sanitizeText_eq_self_of_neutral {l : List Char}
    (h : ∀ c ∈ l, sanitizeNeutral c = true) : sanitizeText l = l := by
  have h' : ∀ c ∈ l, (c = '"' → False) ∧ (!(c = '[' || c = ']')) = true ∧
      (!(c = '(' || c = ')')) = true ∧ isJsWhitespace c = false := by
    intro c hc
    have := h c hc
    simp only [sanitizeNeutral, Bool.not_eq_true', Bool.or_eq_false_iff,
      decide_eq_false_iff_not] at this
    refine ⟨this.1.1.1.1.1, ?_, ?_, this.2⟩
    · simp [this.1.1.1.1.2, this.1.1.1.2]
    · simp [this.1.1.2, this.1.2]
  have hq : replaceQuotes l = l :=
    map_eq_self_of_id fun c hc => if_neg fun he => (h' c hc).1 he
  have hb : removeSquareBrackets l = l :=
    List.filter_eq_self.mpr fun c hc => (h' c hc).2.1
  have hp : removeParens l = l :=
    List.filter_eq_self.mpr fun c hc => (h' c hc).2.2.1
  unfold sanitizeText
  rw [hq, hb, hp]
  exact trimChars_eq_self_of_all fun c hc => (h' c hc).2.2.2

/-- C4 (amended): in the default mind-map branch a leaf is
`sanitizeText` applied to the sentence's first 50 characters plus an
ellipsis marker when the sentence is longer than 50; hence a length-80
sentence of sanitization-neutral characters renders as its first 50
characters plus `'...'` (53 characters in all), and a length-40 sentence
of neutral characters renders unchanged.  (Sanitization runs after
truncation, so quotes, brackets, parentheses, and surrounding whitespace
in the truncated text can reduce the visible count below 50.) -/
theorem mindmapNodeText_truncation (point : List Char) :
    (point.length = 80 → (∀ c ∈ point, sanitizeNeutral c = true) →
      mindmapNodeText point = point.take 50 ++ "...".data ∧
      (mindmapNodeText point).length = 53) ∧
    (point.length = 40 → (∀ c ∈ point, sanitizeNeutral c = true) →
      mindmapNodeText point = point) := by
  constructor
  · intro h80 hneutral
    have he : mindmapNodeText point = sanitizeText (point.take 50 ++ "...".data) := by
      unfold mindmapNodeText
      rw [if_pos (by omega)]
    have hn : ∀ c ∈ point.take 50 ++ "...".data, sanitizeNeutral c = true := by
      intro c hc
      rcases List.mem_append.mp hc with hc | hc
      · exact hneutral c (List.take_subset 50 point hc)
      · simp only [show "...".data = ['.', '.', '.'] from rfl, List.mem_cons,
          List.not_mem_nil, or_false] at hc
        rcases hc with rfl | rfl | rfl <;> decide
    rw [he, sanitizeText_eq_self_of_neutral hn]
    refine ⟨rfl, ?_⟩
    rw [List.length_append, List.length_take, h80]
    decide
  · intro h40 hneutral
    unfold mindmapNodeText
    rw [if_neg (by omega), List.append_nil, List.take_of_length_le (by omega)]
    exact sanitizeText_eq_self_of_neutral hneutral

/-- Witness for the amended C4 at a length-80 and a length-40 sentence
of plain letters. -/
theorem mindmapNodeText_truncation_witness :
    mindmapNodeText (List.replicate 80 'a') =
      (List.replicate 80 'a').take 50 ++ "...".data ∧
    mindmapNodeText (List.replicate 40 'b') = List.replicate 40 'b' :=
  ⟨((mindmapNodeText_truncation (List.replicate 80 'a')).1 (by decide) (by decide)).1,
   (mindmapNodeText_truncation (List.replicate 40 'b')).2 (by decide) (by decide)⟩

/-! ## Title inference: the scan finds the leftmost anchor match (C8) -/

theorem scanHeading_cons (atStart : Bool) (c : Char) (rest : List Char) :
    scanHeading atStart (c :: rest) =
      match (if atStart && c = '#' then matchAfterHash rest else none) with
      | some cap => some cap
      | none => scanHeading (isJsLineTerminator c) rest := rfl

theorem scanHeading_spec (s : List Char) :
    ∀ (rest : List Char) (p : Nat), rest = s.drop p →
      scanHeading (lineStartAt s p) rest =
        (((List.range (s.length - p)).map (p + ·)).find?
            (fun q => lineStartAt s q && hashMatchAt s q)).map (captureAt s)
  | [], p, hdrop => by
    have hlen : s.length ≤ p := List.drop_eq_nil_iff.mp hdrop.symm
    rw [show s.length - p = 0 from by omega]
    rfl
  | c :: t, p, hdrop => by
    have hplen : p < s.length := by
      have hlen := congrArg List.length hdrop
      rw [List.length_drop] at hlen
      simp only [List.length_cons] at hlen
      omega
    have hc : s[p]? = some c := by
      have h0 : (s.drop p)[0]? = s[p + 0]? := List.getElem?_drop s p 0
      rw [← hdrop] at h0
      simpa using h0.symm
    have ht : t = s.drop (p + 1) := by
      have h1 : (s.drop p).drop 1 = s.drop (p + 1) := List.drop_drop 1 p s
      rw [← hdrop] at h1
      simpa using h1
    rw [show s.length - p = (s.length - (p + 1)) + 1 from by omega,
      List.range_succ_eq_map, List.map_cons, List.map_map, Nat.add_zero]
    by_cases hq : (lineStartAt s p && hashMatchAt s p) = true
    · have hfind : List.find? (fun q => lineStartAt s q && hashMatchAt s q)
          (p :: List.map ((fun x => p + x) ∘ Nat.succ) (List.range (s.length - (p + 1)))) =
          some p := List.find?_cons_of_pos _ hq
      rw [hfind, Option.map_some']
      obtain ⟨hls, hhm⟩ := Bool.and_eq_true_iff.mp hq
      unfold hashMatchAt at hhm
      obtain ⟨hhash, hsome⟩ := Bool.and_eq_true_iff.mp hhm
      have hch : c = '#' := by
        rw [hc] at hhash
        simpa using hhash
      obtain ⟨cap, hcap⟩ := Option.isSome_iff_exists.mp hsome
      have hcond : (lineStartAt s p && (decide (c = '#'))) = true := by
        rw [hls, hch]
        decide
      rw [scanHeading_cons, if_pos hcond, ht, hcap]
      show some cap = some (captureAt s p)
      unfold captureAt
      rw [hcap]
      rfl
    · have hfind : List.find? (fun q => lineStartAt s q && hashMatchAt s q)
          (p :: List.map ((fun x => p + x) ∘ Nat.succ) (List.range (s.length - (p + 1)))) =
          List.find? (fun q => lineStartAt s q && hashMatchAt s q)
            (List.map ((fun x => p + x) ∘ Nat.succ) (List.range (s.length - (p + 1)))) :=
        List.find?_cons_of_neg _ (by simpa using hq)
      rw [hfind]
      have hmap : List.map ((fun x => p + x) ∘ Nat.succ) (List.range (s.length - (p + 1))) =
          List.map (fun x => (p + 1) + x) (List.range (s.length - (p + 1))) :=
        List.map_congr_left fun x _ => by
          simp only [Function.comp_apply]
          omega
      rw [hmap]
      have hnone : (if lineStartAt s p && c = '#' then matchAfterHash t else none) = none := by
        by_cases hls : lineStartAt s p = true
        · by_cases hch : c = '#'
          · have hcond : (lineStartAt s p && (decide (c = '#'))) = true := by
              rw [hls, hch]
              decide
            have hsome : matchAfterHash (s.drop (p + 1)) = none := by
              rcases hm : matchAfterHash (s.drop (p + 1)) with _ | cap
              · rfl
              · exfalso
                apply hq
                rw [Bool.and_eq_true_iff]
                refine ⟨hls, ?_⟩
                unfold hashMatchAt
                rw [hc, hch, hm]
                simp
            rw [if_pos hcond, ht]
            exact hsome
          · rw [if_neg (by simp [hch])]
        · rw [if_neg (by simp [Bool.eq_false_iff.mpr hls])]
      rw [scanHeading_cons, hnone]
      have hflag : lineStartAt s (p + 1) = isJsLineTerminator c := by
        unfold lineStartAt
        rw [if_neg (Nat.succ_ne_zero p), show p + 1 - 1 = p from rfl, hc]
        rfl
      rw [← hflag]
      exact scanHeading_spec s t (p + 1) ht

theorem regexHeadingMatch_eq (s : List Char) :
    regexHeadingMatch s = (firstHashMatchPos s).map (captureAt s) := by
  have h := scanHeading_spec s s 0 (by simp)
  rw [show lineStartAt s 0 = true from by simp [lineStartAt]] at h
  unfold regexHeadingMatch firstHashMatchPos
  rw [h, Nat.sub_zero]
  congr 1
  have hmap : (List.range s.length).map (0 + ·) = List.range s.length := by
    have hid : (List.range s.length).map (0 + ·) = (List.range s.length).map id :=
      List.map_congr_left fun x _ => by simp only [id]; omega
    rw [hid, List.map_id]
  rw [hmap]

/-- C8 (amended): title inference returns the trimmed capture of the
first (leftmost) line-start match of `#` followed by whitespace then
text, where the whitespace may cross line terminators so the captured
text can come from a later line; otherwise the trimmed first line,
truncated to 47 characters plus an ellipsis marker when longer than 50;
otherwise — when the first line trims to the empty string, in particular
for the empty document — the fixed default title. -/
theorem generateTitle_eq_spec (content : List Char) :
    generateTitleFromContent content = titleFromSpec content := by
  unfold generateTitleFromContent titleFromSpec
  rw [regexHeadingMatch_eq content]
  cases firstHashMatchPos content with
  | none => rfl
  | some p => rfl

/-! ## Concrete scenario checks (spec §8) -/

example : findHeadingsAndContent "# A\nhello\n# B\nworld\n".data =
    [{ heading := "A".data, lineIndex := 0, content := "hello".data },
     { heading := "B".data, lineIndex := 2, content := "world".data }] := by rfl

example : findHeadingsAndContent "# A\n# B\ntext".data =
    [{ heading := "B".data, lineIndex := 1, content := "text".data }] := by rfl

example : generateMermaidCode "random unrelated sentence with no keywords.".data
    "Notes".data =
    "mindmap\n  root((Notes))\n    random unrelated sentence with no keywords\n".data := by
  rfl

example : generateTitleFromContent "# Quarterly Report\nbody".data =
    "Quarterly Report".data := by rfl

example : generateTitleFromContent "Summary of findings for Q3".data =
    "Summary of findings for Q3".data := by rfl

example : generateTitleFromContent [] = "Untitled Report".data := by rfl

example : containsSub "ree".data "agreement".data = true := by decide

example : containsKeywords "Trade AGREEMENT with x".data ["agreement".data] = true := by
  decide

example : trimChars "  a b ".data = "a b".data := by decide

example : sanitizeText " (a) [b\"c] ".data =
    ('a' :: ' ' :: 'b' :: singleQuote :: 'c' :: []) := by decide

example : splitLines "a\n\nb".data = ["a".data, [], "b".data] := by decide

example : splitLines [] = [[]] := by decide
